import Mathlib

/-!
Verification development for the DataDesc repository.

DataDesc profiles tabular datasets (CSV and spreadsheet files) and produces
deterministic statistical reports per dataset plus a cross-dataset aggregate
summary.  The repository sources available here are the React frontend
(App.jsx, ReportView.jsx, charts.jsx) and documentation; the Python profiling
engine itself (src/datadesc) is not among the sources, so engine-level
definitions below are modelled from the specification, as indicated in their
doc comments.  Frontend functions (parseCSV, CanvasHistogram, onSubmit) are
embedded from the JavaScript source directly.

Numeric values are embedded as rationals: the properties we settle
(symmetry, presence or absence of a statistic, bin-index bounds, exact
percentages) are arithmetic identities that do not hinge on rounding.
-/

namespace DataDesc

/-! ## Data model (modelled from the spec, section 3)

A Column carries a name, a declared type, and an ordered list of cell
values, each a scalar or null.  A Table is a fixed row count plus an
ordered list of columns. -/

/-- Modelled from the spec: declared column types (section 3). -/
inductive DType where
  | int
  | float
  | bool
  | str
  | temporal
  | unknown
deriving DecidableEq, Repr

/-- Modelled from the spec: a scalar cell value. -/
inductive Value where
  | num (q : ℚ)
  | str (s : String)
  | bool (b : Bool)
deriving DecidableEq, Repr

def DType.isNumeric : DType → Bool
  | .int => true
  | .float => true
  | _ => false

def Value.asNum : Value → Option ℚ
  | .num q => some q
  | _ => none

def Value.asStr : Value → Option String
  | .str s => some s
  | _ => none

/-- Modelled from the spec: a named, typed column of R cells (null = none). -/
structure Column where
  name : String
  dtype : DType
  values : List (Option Value)
deriving DecidableEq, Repr

/-- Modelled from the spec: a table is a fixed row count and ordered columns. -/
structure Table where
  rowCount : ℕ
  cols : List Column
deriving DecidableEq, Repr

/-- Modelled from the spec: run configuration knobs (section 6). -/
structure Config where
  topK : ℕ := 10
  maxCorrCols : ℕ := 80
  sampleCap : ℕ := 200000
  previewRows : ℕ := 20
  listLikeThreshold : ℚ := 3 / 5
  keyUniqueRatio : ℚ := 95 / 100
deriving DecidableEq, Repr

def defaultConfig : Config := {}

/-! ## Sampling and scale policy (modelled from the spec, section 4.1)

The profiling engine source is not under src/; the sampling policy is
modelled from the spec: the sample is the first S rows of the table in
its existing order, used only when R exceeds the cap S. -/

/-- Modelled from the spec: the sampling policy of section 4.1 is missing
from src/ (it lives in the Python engine); the spec fixes it as the first
S rows of the table in its existing order. -/
def sampleRows (S : ℕ) {α : Type} (rows : List α) : List α :=
  rows.take S

/-! ## Frontend submit handler (App.jsx, onSubmit)

The synchronous part of onSubmit up to the network call is embedded as a
state transition returning the next component state plus the list of
effects it fires.  The guard path for an empty file list fires no effect. -/

/-- Component state of App.jsx relevant to onSubmit. -/
structure AppState where
  status : String
  message : String
  downloadUrl : String
  jobId : String
  reportLink : String
deriving DecidableEq, Repr

/-- Outward effects fired by the synchronous part of onSubmit. -/
inductive Effect where
  | openBlankTab
  | postFiles (endpoint : String) (nFiles : ℕ)
deriving DecidableEq, Repr

/-- Embedded from App.jsx onSubmit: the synchronous part of the handler up
to the awaited fetch.  With no files it sets the error status and message
and returns at once, firing no effect; otherwise it opens a pending tab,
switches to the loading status, clears downloadUrl, and posts the files. -/
def onSubmitStart (endpoint : String) (files : List String) (s : AppState) :
    AppState × List Effect :=
  if files.length = 0 then
    ({ s with status := "error", message := "Please add at least one file." }, [])
  else
    ({ s with
        status := "loading"
        message := "Uploading and profiling…"
        downloadUrl := "" },
     [Effect.openBlankTab, Effect.postFiles endpoint files.length])

/-! ## Column helpers (modelled from the spec, section 4.2) -/

/-- Non-null values of a column, in order. -/
def nonNulls (c : Column) : List Value :=
  c.values.filterMap id

/-- Count of non-null cells. -/
def nonNullCount (c : Column) : ℕ :=
  (nonNulls c).length

/-- Count of null cells. -/
def nullCount (c : Column) : ℕ :=
  (c.values.filter (fun o => o.isNone)).length

/-- Modelled from the spec: unique count excluding null (section 4.2,
Uniqueness); the exact, non-sampled variant used by key detection. -/
def uniqueNonNull (c : Column) : ℕ :=
  (nonNulls c).dedup.length

/-! ## Key and ID candidate detection (modelled from the spec, section 4.4)

The detector itself lives in the Python engine, absent from src/; only its
output table (key_duplicates.csv with key_column, unique_keys and
repeated_keys_pct) is consumed by the ReportView Keys tab.  Modelled from
the spec: detection runs over the exact non-sampled uniqueness counts, and
reports the percentage of rows whose key value repeats. -/

/-- Number of non-null rows whose key value occurs more than once. -/
def repeatedRows (c : Column) : ℕ :=
  ((nonNulls c).filter (fun v => decide (2 ≤ (nonNulls c).count v))).length

/-- Modelled from the spec: percentage of rows whose key value repeats
(repeated_keys_pct of key_duplicates.csv). -/
def repeatedKeysPct (R : ℕ) (c : Column) : ℚ :=
  100 * (repeatedRows c : ℚ) / R

/-- One row of key-candidate output. -/
structure KeyStat where
  keyColumn : String
  uniqueKeys : ℕ
  repeatedPct : ℚ
deriving DecidableEq, Repr

/-- Modelled from the spec: a column passes the key-candidate screen when
its non-null unique ratio exceeds the configured threshold; stated without
division as threshold times non-null count below unique count. -/
def uniqueRatioHigh (cfg : Config) (c : Column) : Prop :=
  cfg.keyUniqueRatio * (nonNullCount c : ℚ) < (uniqueNonNull c : ℚ)

instance (cfg : Config) (c : Column) : Decidable (uniqueRatioHigh cfg c) := by
  unfold uniqueRatioHigh; infer_instance

/-- Modelled from the spec: key/ID candidate detection over the exact
(non-sampled) table; the sample cap is never consulted. -/
def keyCandidates (cfg : Config) (t : Table) : List KeyStat :=
  (t.cols.filter (fun c => decide (uniqueRatioHigh cfg c))).map
    (fun c => ⟨c.name, uniqueNonNull c, repeatedKeysPct t.rowCount c⟩)

/-! ## List-like delimiter detection (modelled from the spec, section 4.4)

The detector lives in the Python engine, absent from src/.  Modelled from
the spec: text columns are tested against the fixed candidate delimiters
semicolon, pipe and comma; a value is a hit for a delimiter when splitting
on it yields at least two non-empty segments; the candidate with the
highest hit-rate above the configured threshold wins, ties broken by the
priority order semicolon, pipe, comma. -/

/-- Split a character list on a single-character delimiter; always returns
at least one (possibly empty) segment, one more segment per occurrence. -/
def splitChars (d : Char) : List Char → List (List Char)
  | [] => [[]]
  | c :: rest =>
    match splitChars d rest with
    | [] => [[]]
    | seg :: segs => if c = d then [] :: seg :: segs else (c :: seg) :: segs

/-- A value is a hit for delimiter d when it splits into at least two
non-empty segments. -/
def segmentsOK (d : Char) (s : String) : Bool :=
  decide (2 ≤ ((splitChars d s.data).filter (fun t => decide (t ≠ []))).length)

/-- The delimiter d occurs in s at all. -/
def appearsIn (d : Char) (s : String) : Bool :=
  decide (2 ≤ (splitChars d s.data).length)

/-- Fraction of the given non-null values that are hits for d; zero when
there are no values. -/
def hitRate (d : Char) (vals : List String) : ℚ :=
  if vals.length = 0 then 0
  else ((vals.filter (segmentsOK d)).length : ℚ) / (vals.length : ℚ)

/-- Modelled from the spec: the winning delimiter is the candidate whose
hit-rate is maximal and at least the threshold; equal rates fall to the
earlier branch, realizing the priority order semicolon, pipe, comma. -/
def listLikeDelim (thr : ℚ) (vals : List String) : Option Char :=
  if thr ≤ hitRate ';' vals ∧ hitRate '|' vals ≤ hitRate ';' vals ∧
      hitRate ',' vals ≤ hitRate ';' vals then some ';'
  else if thr ≤ hitRate '|' vals ∧ hitRate ';' vals ≤ hitRate '|' vals ∧
      hitRate ',' vals ≤ hitRate '|' vals then some '|'
  else if thr ≤ hitRate ',' vals ∧ hitRate ';' vals ≤ hitRate ',' vals ∧
      hitRate '|' vals ≤ hitRate ',' vals then some ','
  else none

/-- String cell values of a column over the sampled row set. -/
def strValsSampled (cfg : Config) (c : Column) : List String :=
  (sampleRows cfg.sampleCap c.values).filterMap (fun o => o.bind Value.asStr)

/-- Modelled from the spec: list-like detection for one text column. -/
def listLikeOf (cfg : Config) (c : Column) : Option Char :=
  listLikeDelim cfg.listLikeThreshold (strValsSampled cfg c)

/-- A text column consisting of a single null cell, used to settle the
all-null edge case of list-like detection. -/
def allNullColumn : Column :=
  ⟨"tags", DType.str, [none]⟩

/-! ## Numeric helpers (modelled from the spec, sections 4.2 and 4.3) -/

/-- Mean of a list of rationals (zero on the empty list). -/
def qMean (xs : List ℚ) : ℚ :=
  xs.sum / (xs.length : ℚ)

/-- Sum of squared deviations from the mean; the variance numerator. -/
def sumSqDev (xs : List ℚ) : ℚ :=
  (xs.map (fun x => (x - qMean xs) ^ 2)).sum

/-- Executable zero-variance test: a list has variation exactly when two of
its entries differ; proved equivalent to sumSqDev being nonzero below. -/
def hasVariation (xs : List ℚ) : Bool :=
  match xs with
  | [] => false
  | x :: rest => rest.any (fun y => decide (y ≠ x))

/-- Numeric cell values of a column over the sampled row set. -/
def numsSampled (cfg : Config) (c : Column) : List ℚ :=
  (sampleRows cfg.sampleCap c.values).filterMap (fun o => o.bind Value.asNum)

/-! ## Cross-column correlation (modelled from the spec, section 4.3)

The correlation engine lives in the Python engine, absent from src/.
Modelled from the spec: Pearson correlation over all numeric columns, but
only when their count is within maxCorrCols; otherwise the profile is the
explicit skip marker carrying the count and the limit.  Columns with fewer
than two non-null values or zero variance are excluded. -/

/-- Row-wise paired numeric values of two columns over the sampled row
set, keeping only rows where both cells are non-null numerics. -/
def pairedNums (cfg : Config) (a b : Column) : List (ℚ × ℚ) :=
  ((sampleRows cfg.sampleCap a.values).zip (sampleRows cfg.sampleCap b.values)).filterMap
    (fun p =>
      match p.1.bind Value.asNum, p.2.bind Value.asNum with
      | some x, some y => some (x, y)
      | _, _ => none)

/-- Covariance numerator of a paired sample. -/
def covList (p : List (ℚ × ℚ)) : ℚ :=
  (p.map (fun xy =>
    (xy.1 - qMean (p.map Prod.fst)) * (xy.2 - qMean (p.map Prod.snd)))).sum

/-- Modelled from the spec: one Pearson correlation matrix entry between
two columns, over the rows where both are non-null. -/
noncomputable def corrEntry (cfg : Config) (a b : Column) : ℝ :=
  ((covList (pairedNums cfg a b) : ℚ) : ℝ) /
    Real.sqrt (((sumSqDev ((pairedNums cfg a b).map Prod.fst) : ℚ) : ℝ) *
      ((sumSqDev ((pairedNums cfg a b).map Prod.snd) : ℚ) : ℝ))

/-- Modelled from the spec: the correlation output is either a full matrix
over the included numeric columns or the explicit skip marker with the
numeric column count and the limit, never a partial matrix. -/
inductive CorrelationProfile where
  | skippedWide (numericCount limit : ℕ)
  | computed (included : List Column)
deriving DecidableEq, Repr

/-- Numeric columns of a table, in order. -/
def numericCols (t : Table) : List Column :=
  t.cols.filter (fun c => c.dtype.isNumeric)

/-- Numeric columns included in the matrix: at least two non-null sampled
values and nonzero variance. -/
def includedForCorr (cfg : Config) (t : Table) : List Column :=
  (numericCols t).filter
    (fun c => decide (2 ≤ (numsSampled cfg c).length) && hasVariation (numsSampled cfg c))

/-- Modelled from the spec: skip entirely when the numeric column count
exceeds maxCorrCols; otherwise compute over the included columns. -/
def correlationProfile (cfg : Config) (t : Table) : CorrelationProfile :=
  if cfg.maxCorrCols < (numericCols t).length then
    CorrelationProfile.skippedWide (numericCols t).length cfg.maxCorrCols
  else
    CorrelationProfile.computed (includedForCorr cfg t)

/-! ## Column analyzer (modelled from the spec, section 4.2)

The analyzer lives in the Python engine, absent from src/.  Each optional
statistic is an explicit present-or-absent field; a statistic that cannot
be computed (such as the sample standard deviation of fewer than two
non-null values) is absent, never defaulted to zero.  The std field is
modelled by its square, the sample variance with denominator length minus
one, to stay within the rationals; it is present exactly when the std is
computable. -/

/-- Numeric summary of one column; every field is present-or-absent. -/
structure NumericStats where
  nmin : Option ℚ
  nmax : Option ℚ
  mean : Option ℚ
  stdSq : Option ℚ
deriving DecidableEq, Repr

/-- Modelled from the spec: numeric statistics over the sampled values;
each statistic is computed when defined and omitted otherwise. -/
def mkNumericStats (xs : List ℚ) : NumericStats :=
  { nmin := xs.min?
    nmax := xs.max?
    mean := if xs.length = 0 then none else some (qMean xs)
    stdSq := if 2 ≤ xs.length then some (sumSqDev xs / ((xs.length : ℚ) - 1)) else none }

/-- Per-column output of the analyzer. -/
structure ColumnProfile where
  name : String
  dtype : DType
  nonNull : ℕ
  nullCnt : ℕ
  uniq : ℕ
  numeric : Option NumericStats
  listLike : Option Char
deriving DecidableEq, Repr

/-- Modelled from the spec: map one column to its profile; a total
function, so no single statistic can abort the column. -/
def analyzeColumn (cfg : Config) (c : Column) : ColumnProfile :=
  { name := c.name
    dtype := c.dtype
    nonNull := nonNullCount c
    nullCnt := nullCount c
    uniq := uniqueNonNull c
    numeric := if c.dtype.isNumeric then some (mkNumericStats (numsSampled cfg c)) else none
    listLike := if c.dtype = DType.str then listLikeOf cfg c else none }

/-- Schema-only profile used for empty tables: name and declared type
only, every statistic absent. -/
def schemaOnlyProfile (c : Column) : ColumnProfile :=
  ⟨c.name, c.dtype, 0, 0, 0, none, none⟩

/-! ## Quality warnings and dataset assembly (modelled from the spec,
sections 4.5 and 4.6) -/

/-- Modelled from the spec: structured quality warnings. -/
inductive QualityWarning where
  | wideCorrelationSkipped (numericCount limit : ℕ)
  | constantColumn (col : String)
deriving DecidableEq, Repr

/-- Modelled from the spec: the rule engine relevant here emits exactly
one wide-correlation warning when the matrix is skipped. -/
def warningsOf (cfg : Config) (t : Table) : List QualityWarning :=
  if cfg.maxCorrCols < (numericCols t).length then
    [QualityWarning.wideCorrelationSkipped (numericCols t).length cfg.maxCorrCols]
  else
    []

/-- Per-dataset profile assembled by the engine. -/
structure DatasetProfile where
  rows : ℕ
  columns : ℕ
  markedEmpty : Bool
  colProfiles : List ColumnProfile
  corr : Option CorrelationProfile
  keys : List KeyStat
  warnings : List QualityWarning
  sampled : Bool
deriving DecidableEq, Repr

/-- Modelled from the spec: the assembler.  A table with zero rows gets a
schema-only profile marked empty, with no further computation; otherwise
every column is analyzed, correlation and key detection run, and the
warning rules are evaluated.  The function is total: no input raises. -/
def profileTable (cfg : Config) (t : Table) : DatasetProfile :=
  if t.rowCount = 0 then
    { rows := 0
      columns := t.cols.length
      markedEmpty := true
      colProfiles := t.cols.map schemaOnlyProfile
      corr := none
      keys := []
      warnings := []
      sampled := false }
  else
    { rows := t.rowCount
      columns := t.cols.length
      markedEmpty := false
      colProfiles := t.cols.map (analyzeColumn cfg)
      corr := some (correlationProfile cfg t)
      keys := keyCandidates cfg t
      warnings := warningsOf cfg t
      sampled := decide (cfg.sampleCap < t.rowCount) }

/-! ## Aggregator (modelled from the spec, section 4.7)

The aggregator lives in the Python engine, absent from src/.  Modelled
from the spec: a pure function from the sequence of dataset profiles to
the master summary, with sums, global dtype composition sorted by count
descending and lexically on ties, cross-dataset missingness statistics,
and a warning rollup. -/

/-- Stable report label of a declared type, used for lexical tie-breaks. -/
def DType.label : DType → String
  | .int => "Int64"
  | .float => "Float64"
  | .bool => "Boolean"
  | .str => "Utf8"
  | .temporal => "Datetime"
  | .unknown => "Unknown"

/-- One entry of the global dtype composition. -/
structure DTypeCount where
  dtype : DType
  count : ℕ
deriving DecidableEq, Repr

/-- Missing-cell percentage of one dataset profile. -/
def missingCellPct (p : DatasetProfile) : ℚ :=
  if p.rows * p.columns = 0 then 0
  else 100 * ((p.colProfiles.map (fun cp => cp.nullCnt)).sum : ℚ) / ((p.rows * p.columns : ℕ) : ℚ)

/-- Nearest-rank percentile at num/den over a list, none when empty. -/
def percentile (num den : ℕ) (xs : List ℚ) : Option ℚ :=
  (xs.mergeSort (fun a b => decide (a ≤ b))).get? ((num * (xs.length - 1)) / den)

/-- The fixed enumeration of declared types. -/
def allDTypes : List DType :=
  [DType.int, DType.float, DType.bool, DType.str, DType.temporal, DType.unknown]

/-- Global dtype composition: count of columns per declared type across
all profiles, sorted by count descending, ties lexical on the label. -/
def dtypeComposition (ps : List DatasetProfile) : List DTypeCount :=
  ((allDTypes.map (fun d =>
      (⟨d, ((ps.map (fun p => p.colProfiles)).flatten.filter
        (fun cp => cp.dtype = d)).length⟩ : DTypeCount))).filter
    (fun e => decide (e.count ≠ 0))).mergeSort
    (fun a b => b.count < a.count || (b.count = a.count && a.dtype.label ≤ b.dtype.label))

/-- Cross-dataset master summary. -/
structure MasterSummary where
  datasetsProcessed : ℕ
  totalRows : ℕ
  totalColumns : ℕ
  composition : List DTypeCount
  avgMissingPct : Option ℚ
  p50MissingPct : Option ℚ
  p90MissingPct : Option ℚ
  warningsTotal : ℕ
deriving DecidableEq, Repr

/-- Modelled from the spec: the aggregator, a pure function from the
sequence of dataset profiles to the master summary. -/
def aggregate (ps : List DatasetProfile) : MasterSummary :=
  { datasetsProcessed := ps.length
    totalRows := (ps.map (fun p => p.rows)).sum
    totalColumns := (ps.map (fun p => p.columns)).sum
    composition := dtypeComposition ps
    avgMissingPct :=
      if ps.length = 0 then none
      else some ((ps.map missingCellPct).sum / (ps.length : ℚ))
    p50MissingPct := percentile 1 2 (ps.map missingCellPct)
    p90MissingPct := percentile 9 10 (ps.map missingCellPct)
    warningsTotal := (ps.map (fun p => p.warnings.length)).sum }

/-! ## CSV parsing (embedded from ReportView.jsx, parseCSV)

The frontend parses CSV text with a character-level state machine: a
double quote toggles quoting, a doubled double quote inside quotes emits
one literal quote, commas and newlines split only outside quotes, and a
cell or row is flushed at a newline or at end of input only when nonempty.
The first parsed row gives the headers, trimmed; each remaining row
becomes a record assigning to each header the cell at its index, absent
when the row is shorter.  Cells are embedded as character lists. -/

/-- Embedded from parseCSV: the character loop.  Arguments mirror the
JavaScript locals: remaining input, inQuotes, col, row, rows. -/
def csvAux : List Char → Bool → List Char → List (List Char) →
    List (List (List Char)) → List (List (List Char))
  | [], _, col, row, rows =>
    if col.length ≠ 0 ∨ row.length ≠ 0 then rows ++ [row ++ [col]] else rows
  | '"' :: '"' :: rest, true, col, row, rows =>
    csvAux rest true (col ++ ['"']) row rows
  | '"' :: rest, inQ, col, row, rows =>
    csvAux rest (!inQ) col row rows
  | c :: rest, inQ, col, row, rows =>
    if c = ',' ∧ inQ = false then
      csvAux rest inQ [] (row ++ [col]) rows
    else if (c = '\n' ∨ c = '\r') ∧ inQ = false then
      if col.length ≠ 0 ∨ row.length ≠ 0 then
        csvAux rest inQ [] [] (rows ++ [row ++ [col]])
      else
        csvAux rest inQ col row rows
    else
      csvAux rest inQ (col ++ [c]) row rows

/-- Embedded from parseCSV: the list of raw rows of the input text. -/
def csvRows (text : String) : List (List (List Char)) :=
  csvAux text.data false [] [] []

/-- Embedded from the JavaScript String.prototype.trim applied to each
header: strip leading and trailing whitespace. -/
def trimCell (l : List Char) : List Char :=
  ((l.dropWhile Char.isWhitespace).reverse.dropWhile Char.isWhitespace).reverse

/-- Embedded from parseCSV: build one record, assigning to each header
the cell at the same index, absent when the row is shorter. -/
def mkRecord (headers : List (List Char)) (r : List (List Char)) :
    List (List Char × Option (List Char)) :=
  headers.enum.map (fun ih => (ih.2, r[ih.1]?))

/-- Embedded from parseCSV: the full parser, one record per data row. -/
def parseCSV (text : String) : List (List (List Char × Option (List Char))) :=
  match csvRows text with
  | [] => []
  | header :: dataRows =>
    (dataRows.filter (fun r => decide (r.length ≠ 0))).map
      (mkRecord (header.map trimCell))

/-! ## Canvas histogram (embedded from ReportView.jsx, CanvasHistogram)

The component computes min and max of the numeric values, fourteen bins of
width (max - min) / 14 falling back to 1 when that is zero, clamps each
bin index to at most 13, and increments one counter per value.
JavaScript numbers are embedded as rationals. -/

/-- Embedded from CanvasHistogram: Math.min over the values (the
component returns before this on an empty array). -/
def histMin : List ℚ → ℚ
  | [] => 0
  | x :: xs => xs.foldl min x

/-- Embedded from CanvasHistogram: Math.max over the values. -/
def histMax : List ℚ → ℚ
  | [] => 0
  | x :: xs => xs.foldl max x

/-- Embedded from CanvasHistogram: bin width (max - min) / 14, replaced
by 1 when that quotient is zero. -/
def binSize (values : List ℚ) : ℚ :=
  if (histMax values - histMin values) / 14 = 0 then 1
  else (histMax values - histMin values) / 14

/-- Embedded from CanvasHistogram: the bin index of one value,
Math.min(13, Math.floor((v - min) / binSize)). -/
def binIdxZ (values : List ℚ) (v : ℚ) : ℤ :=
  min 13 ⌊(v - histMin values) / binSize values⌋

/-- The bin index as an index into the fourteen counters. -/
def binIdx (values : List ℚ) (v : ℚ) : Fin 14 :=
  ⟨(binIdxZ values v).toNat, by
    have h : binIdxZ values v ≤ 13 := min_le_left _ _
    omega⟩

/-- Embedded from CanvasHistogram: the fourteen bin counters after one
increment per value. -/
def binCounts (values : List ℚ) : Fin 14 → ℕ :=
  values.foldl
    (fun acc v => Function.update acc (binIdx values v) (acc (binIdx values v) + 1))
    (fun _ => 0)

/-! ## Claim theorems (first batch) -/

/-- Claim C2: for every table with row count R at most the cap S, every
sampled computation equals the exact full-table computation, and when
R exceeds S the sample used is exactly the first S rows in the existing
order, so results are reproducible for identical input and S. -/
theorem sampling_identity_below_cap {α β : Type} (rows : List α) (S : ℕ) :
    (rows.length ≤ S → sampleRows S rows = rows) ∧
    (∀ f : List α → β, rows.length ≤ S → f (sampleRows S rows) = f rows) ∧
    sampleRows S rows = rows.take S := by
  refine ⟨fun h => List.take_of_length_le h, fun f h => ?_, rfl⟩
  rw [sampleRows, List.take_of_length_le h]

/-- Witness for C2 at a concrete table of three rows and cap five. -/
theorem sampling_identity_below_cap_witness :
    sampleRows 5 [(10 : ℕ), 20, 30] = [10, 20, 30] ∧
    List.length (sampleRows 5 [(10 : ℕ), 20, 30]) = List.length [(10 : ℕ), 20, 30] := by
  exact ⟨(@sampling_identity_below_cap ℕ ℕ [10, 20, 30] 5).1 (by decide),
    (@sampling_identity_below_cap ℕ ℕ [10, 20, 30] 5).2.1 List.length (by decide)⟩

/-- Claim C10: when the selected file list is empty, onSubmit sets status
to the error state with the fixed message and returns without firing any
network request and without modifying downloadUrl, jobId or reportLink. -/
theorem onSubmit_empty_files (endpoint : String) (files : List String)
    (s : AppState) (h : files = []) :
    (onSubmitStart endpoint files s).1.status = "error" ∧
    (onSubmitStart endpoint files s).1.message = "Please add at least one file." ∧
    (onSubmitStart endpoint files s).1.downloadUrl = s.downloadUrl ∧
    (onSubmitStart endpoint files s).1.jobId = s.jobId ∧
    (onSubmitStart endpoint files s).1.reportLink = s.reportLink ∧
    (onSubmitStart endpoint files s).2 = [] := by
  subst h
  simp [onSubmitStart]

/-- Witness for C10 at a concrete empty file list and state. -/
theorem onSubmit_empty_files_witness :
    (onSubmitStart "http://localhost:8000/profile" []
      ⟨"idle", "", "d0", "j0", "r0"⟩).1.status = "error" ∧
    (onSubmitStart "http://localhost:8000/profile" []
      ⟨"idle", "", "d0", "j0", "r0"⟩).1.message = "Please add at least one file." ∧
    (onSubmitStart "http://localhost:8000/profile" []
      ⟨"idle", "", "d0", "j0", "r0"⟩).1.downloadUrl = "d0" ∧
    (onSubmitStart "http://localhost:8000/profile" []
      ⟨"idle", "", "d0", "j0", "r0"⟩).1.jobId = "j0" ∧
    (onSubmitStart "http://localhost:8000/profile" []
      ⟨"idle", "", "d0", "j0", "r0"⟩).1.reportLink = "r0" ∧
    (onSubmitStart "http://localhost:8000/profile" []
      ⟨"idle", "", "d0", "j0", "r0"⟩).2 = [] :=
  onSubmit_empty_files "http://localhost:8000/profile" []
    ⟨"idle", "", "d0", "j0", "r0"⟩ rfl

/-- Non-null and null cell counts of a column add up to its length. -/
theorem nonNullCount_add_nullCount (c : Column) :
    nonNullCount c + nullCount c = c.values.length := by
  unfold nonNullCount nullCount nonNulls
  induction c.values with
  | nil => simp
  | cons o rest ih =>
    cases o <;> simp [List.filterMap_cons, List.filter_cons] <;> omega

/-- Claim C3: a true primary key column, whose non-null unique count equals
the row count and which contains no nulls, has repeated_keys_pct equal to
zero; and key detection reads only the exact non-sampled counts, so its
output does not depend on the sample cap. -/
theorem primary_key_repeated_pct_zero (cfg : Config) (c : Column) (S : ℕ)
    (hnull : nullCount c = 0)
    (huniq : uniqueNonNull c = c.values.length) :
    repeatedKeysPct c.values.length c = 0 ∧
    (∀ t : Table, keyCandidates { cfg with sampleCap := S } t = keyCandidates cfg t) := by
  constructor
  · have hadd := nonNullCount_add_nullCount c
    have hlen : (nonNulls c).length = c.values.length := by
      unfold nonNullCount at hadd; omega
    have heq : (nonNulls c).dedup = nonNulls c :=
      (List.dedup_sublist (nonNulls c)).eq_of_length (by
        unfold uniqueNonNull at huniq; omega)
    have hnodup : (nonNulls c).Nodup := List.dedup_eq_self.mp heq
    have hcount : ∀ v, (nonNulls c).count v ≤ 1 :=
      List.nodup_iff_count_le_one.mp hnodup
    have hrep : repeatedRows c = 0 := by
      unfold repeatedRows
      rw [List.length_eq_zero, List.filter_eq_nil_iff]
      intro v _
      have := hcount v
      simp only [decide_eq_true_eq]
      omega
    unfold repeatedKeysPct
    rw [hrep]
    simp
  · intro t
    rfl

/-- Witness for C3 at a concrete two-row identifier column. -/
theorem primary_key_repeated_pct_zero_witness :
    nullCount ⟨"id", DType.int, [some (Value.num 1), some (Value.num 2)]⟩ = 0 ∧
    repeatedKeysPct 2 ⟨"id", DType.int, [some (Value.num 1), some (Value.num 2)]⟩ = 0 := by
  refine ⟨by decide, ?_⟩
  exact (primary_key_repeated_pct_zero defaultConfig
    ⟨"id", DType.int, [some (Value.num 1), some (Value.num 2)]⟩ 7
    (by decide) (by decide)).1

/-- A value in which a delimiter never occurs cannot be a hit for it. -/
theorem segmentsOK_false_of_not_appears (d : Char) (s : String)
    (h : appearsIn d s = false) : segmentsOK d s = false := by
  unfold appearsIn at h
  unfold segmentsOK
  simp only [decide_eq_false_iff_not] at h ⊢
  intro h2
  exact h (le_trans h2 (List.length_filter_le _ _))

/-- When every value is a hit for d, the hit-rate is one. -/
theorem hitRate_eq_one (d : Char) (vals : List String) (hne : vals ≠ [])
    (hall : ∀ s ∈ vals, segmentsOK d s = true) : hitRate d vals = 1 := by
  unfold hitRate
  have hlen : vals.length ≠ 0 := fun h => hne (List.length_eq_zero.mp h)
  rw [if_neg hlen, List.filter_eq_self.mpr hall, div_self]
  exact_mod_cast hlen

/-- When no value is a hit for d, the hit-rate is zero. -/
theorem hitRate_eq_zero (d : Char) (vals : List String)
    (hall : ∀ s ∈ vals, segmentsOK d s = false) : hitRate d vals = 0 := by
  unfold hitRate
  by_cases hlen : vals.length = 0
  · rw [if_pos hlen]
  · rw [if_neg hlen, List.filter_eq_nil_iff.mpr (fun s hs => by simp [hall s hs])]
    simp

/-- Claim C4 (amended): a text column with at least one non-null sampled
value, all of whose non-null values contain a semicolon with at least two
non-empty segments while pipe and comma never occur, is flagged list-like
with delimiter semicolon; and a lower-priority candidate never beats a
higher-priority candidate with an equal hit-rate, realizing the priority
order semicolon, pipe, comma on ties. -/
theorem listlike_semicolon_detection (cfg : Config) (c : Column)
    (hthr : cfg.listLikeThreshold ≤ 1)
    (hne : strValsSampled cfg c ≠ [])
    (hall : ∀ s ∈ strValsSampled cfg c, segmentsOK ';' s = true)
    (hother : ∀ s ∈ strValsSampled cfg c,
      appearsIn '|' s = false ∧ appearsIn ',' s = false) :
    listLikeOf cfg c = some ';' ∧
    (∀ (thr : ℚ) (vals : List String),
      (hitRate ';' vals = hitRate '|' vals → listLikeDelim thr vals ≠ some '|') ∧
      (hitRate ';' vals = hitRate ',' vals → listLikeDelim thr vals ≠ some ',') ∧
      (hitRate '|' vals = hitRate ',' vals → listLikeDelim thr vals ≠ some ',')) := by
  constructor
  · have h1 : hitRate ';' (strValsSampled cfg c) = 1 := hitRate_eq_one _ _ hne hall
    have h2 : hitRate '|' (strValsSampled cfg c) = 0 :=
      hitRate_eq_zero _ _ (fun s hs => segmentsOK_false_of_not_appears _ _ (hother s hs).1)
    have h3 : hitRate ',' (strValsSampled cfg c) = 0 :=
      hitRate_eq_zero _ _ (fun s hs => segmentsOK_false_of_not_appears _ _ (hother s hs).2)
    unfold listLikeOf listLikeDelim
    rw [h1, h2, h3, if_pos ⟨hthr, by norm_num, by norm_num⟩]
  · intro thr vals
    unfold listLikeDelim
    split_ifs with hA hB hC
    · exact ⟨fun _ => by simp, fun _ => by simp, fun _ => by simp⟩
    · refine ⟨fun hEq => ?_, fun _ => by simp, fun _ => by simp⟩
      exact absurd ⟨by linarith [hB.1], by linarith [hB.2.1], by linarith [hB.2.2]⟩ hA
    · refine ⟨fun _ => by simp, fun hEq => ?_, fun hEq => ?_⟩
      · exact absurd ⟨by linarith [hC.1], by linarith [hC.2.2], by linarith [hC.2.1]⟩ hA
      · exact absurd ⟨by linarith [hC.1], by linarith [hC.2.1], by linarith [hC.2.2]⟩ hB
    · exact ⟨fun _ => by simp, fun _ => by simp, fun _ => by simp⟩

/-- Witness for C4 at a concrete single-value semicolon column with the
threshold set to one. -/
theorem listlike_semicolon_detection_witness :
    listLikeOf { defaultConfig with listLikeThreshold := 1 }
      ⟨"tags", DType.str, [some (Value.str "a;b")]⟩ = some ';' :=
  (listlike_semicolon_detection { defaultConfig with listLikeThreshold := 1 }
    ⟨"tags", DType.str, [some (Value.str "a;b")]⟩
    (le_refl 1) (by decide) (by decide) (by decide)).1

/-- Counterexample for C4 as stated: in a text column whose cells are all
null, every non-null value vacuously contains a semicolon with two
non-empty segments and no other candidate delimiter, yet detection does
not flag the column, because the hit-rate over zero sampled non-null
values is zero and below the threshold. -/
theorem listlike_allnull_counterexample :
    (∀ s ∈ strValsSampled defaultConfig allNullColumn,
      segmentsOK ';' s = true ∧ appearsIn '|' s = false ∧ appearsIn ',' s = false) ∧
    listLikeOf defaultConfig allNullColumn ≠ some ';' := by
  have hv : strValsSampled defaultConfig allNullColumn = [] := by decide
  constructor
  · rw [hv]
    intro s hs
    exact absurd hs (List.not_mem_nil s)
  · unfold listLikeOf listLikeDelim
    rw [hv]
    have h0 : hitRate ';' ([] : List String) = 0 := hitRate_eq_zero _ _ (by simp)
    have h1 : hitRate '|' ([] : List String) = 0 := hitRate_eq_zero _ _ (by simp)
    have h2 : hitRate ',' ([] : List String) = 0 := hitRate_eq_zero _ _ (by simp)
    rw [h0, h1, h2]
    have hthr : ¬ (defaultConfig.listLikeThreshold ≤ (0 : ℚ)) := by
      show ¬ ((3 : ℚ) / 5 ≤ 0)
      norm_num
    rw [if_neg (fun h => hthr h.1), if_neg (fun h => hthr h.1), if_neg (fun h => hthr h.1)]
    simp

/-- A sum of squared deviations is zero exactly when every entry equals
the reference point. -/
theorem sum_sq_eq_zero_iff (xs : List ℚ) (m : ℚ) :
    (xs.map (fun x => (x - m) ^ 2)).sum = 0 ↔ ∀ x ∈ xs, x = m := by
  induction xs with
  | nil => simp
  | cons a l ih =>
    simp only [List.map_cons, List.sum_cons, List.mem_cons]
    have h1 : (0 : ℚ) ≤ (a - m) ^ 2 := sq_nonneg _
    have h2 : (0 : ℚ) ≤ (l.map (fun x => (x - m) ^ 2)).sum := by
      apply List.sum_nonneg
      intro q hq
      rcases List.mem_map.mp hq with ⟨x, _, rfl⟩
      exact sq_nonneg _
    rw [add_eq_zero_iff_of_nonneg h1 h2, sq_eq_zero_iff, sub_eq_zero, ih]
    constructor
    · rintro ⟨ha, hl⟩ x (rfl | hx)
      · exact ha
      · exact hl x hx
    · intro h
      exact ⟨h a (Or.inl rfl), fun x hx => h x (Or.inr hx)⟩

/-- Sums of squared deviations are nonnegative. -/
theorem sumSqDev_nonneg (xs : List ℚ) : 0 ≤ sumSqDev xs := by
  apply List.sum_nonneg
  intro q hq
  rcases List.mem_map.mp hq with ⟨x, _, rfl⟩
  exact sq_nonneg _

/-- The sum of a constant list is its length times the constant. -/
theorem sum_of_const (xs : List ℚ) (x : ℚ) (h : ∀ y ∈ xs, y = x) :
    xs.sum = (xs.length : ℚ) * x := by
  induction xs with
  | nil => simp
  | cons a l ih =>
    simp only [List.sum_cons, List.length_cons]
    rw [h a (List.mem_cons_self a l), ih (fun y hy => h y (List.mem_cons_of_mem a hy))]
    push_cast
    ring

/-- The mean of a nonempty constant list is the constant. -/
theorem qMean_const (xs : List ℚ) (x : ℚ) (hne : xs ≠ []) (h : ∀ y ∈ xs, y = x) :
    qMean xs = x := by
  unfold qMean
  rw [sum_of_const xs x h]
  have hlen : (xs.length : ℚ) ≠ 0 := by
    have : xs.length ≠ 0 := fun h0 => hne (List.length_eq_zero.mp h0)
    exact_mod_cast this
  field_simp

/-- The executable variation test agrees with zero variance: the sum of
squared deviations vanishes exactly when no two entries differ. -/
theorem sumSqDev_eq_zero_iff (xs : List ℚ) :
    sumSqDev xs = 0 ↔ hasVariation xs = false := by
  cases xs with
  | nil => simp [sumSqDev, hasVariation]
  | cons a l =>
    rw [sumSqDev, sum_sq_eq_zero_iff]
    unfold hasVariation
    rw [List.any_eq_false]
    constructor
    · intro h y hy
      have ha := h a (List.mem_cons_self a l)
      have hyv := h y (List.mem_cons_of_mem a hy)
      simp only [decide_eq_true_eq, ne_eq, not_not]
      exact hyv.trans ha.symm
    · intro h
      have hall : ∀ y ∈ a :: l, y = a := by
        intro z hz
        rcases List.mem_cons.mp hz with rfl | hz2
        · rfl
        · have := h z hz2
          simpa using this
      have hm : qMean (a :: l) = a := qMean_const _ _ (List.cons_ne_nil a l) hall
      intro y hy
      rw [hm]
      exact hall y hy

/-- Pairing two columns in the opposite order swaps every pair. -/
theorem pairedNums_swap (cfg : Config) (a b : Column) :
    pairedNums cfg b a = (pairedNums cfg a b).map Prod.swap := by
  unfold pairedNums
  rw [← List.zip_swap, List.filterMap_map, List.map_filterMap]
  congr 1
  funext p
  rcases p with ⟨o1, o2⟩
  cases h1 : o1.bind Value.asNum <;> cases h2 : o2.bind Value.asNum <;>
    simp [Function.comp, h1, h2]

/-- Pairing a column with itself duplicates each sampled numeric value. -/
theorem pairedNums_self (cfg : Config) (a : Column) :
    pairedNums cfg a a = (numsSampled cfg a).map (fun x => (x, x)) := by
  unfold pairedNums numsSampled
  generalize sampleRows cfg.sampleCap a.values = l
  induction l with
  | nil => simp
  | cons o rest ih =>
    rw [List.zip_cons_cons]
    cases h : o.bind Value.asNum <;> simp [List.filterMap_cons, h, ih]

/-- The covariance numerator is symmetric under swapping the pairs. -/
theorem covList_map_swap (p : List (ℚ × ℚ)) :
    covList (p.map Prod.swap) = covList p := by
  unfold covList
  have hfst : (p.map Prod.swap).map Prod.fst = p.map Prod.snd := by
    rw [List.map_map]; rfl
  have hsnd : (p.map Prod.swap).map Prod.snd = p.map Prod.fst := by
    rw [List.map_map]; rfl
  rw [hfst, hsnd, List.map_map]
  congr 1
  apply List.map_congr_left
  intro xy _
  show (xy.2 - qMean (p.map Prod.snd)) * (xy.1 - qMean (p.map Prod.fst)) = _
  ring

/-- On a self-paired sample the covariance numerator is the sum of squared
deviations. -/
theorem covList_dup (xs : List ℚ) :
    covList (xs.map (fun x => (x, x))) = sumSqDev xs := by
  unfold covList sumSqDev
  have hfst : (xs.map (fun x : ℚ => (x, x))).map Prod.fst = xs := by
    rw [List.map_map]; exact List.map_id _
  have hsnd : (xs.map (fun x : ℚ => (x, x))).map Prod.snd = xs := by
    rw [List.map_map]; exact List.map_id _
  rw [hfst, hsnd, List.map_map]
  congr 1
  apply List.map_congr_left
  intro x _
  show (x - qMean xs) * (x - qMean xs) = (x - qMean xs) ^ 2
  ring

/-- Every Pearson entry is symmetric in its two columns. -/
theorem corrEntry_symm (cfg : Config) (a b : Column) :
    corrEntry cfg a b = corrEntry cfg b a := by
  unfold corrEntry
  rw [pairedNums_swap cfg a b, covList_map_swap]
  have hfst : ((pairedNums cfg a b).map Prod.swap).map Prod.fst =
      (pairedNums cfg a b).map Prod.snd := by
    rw [List.map_map]; rfl
  have hsnd : ((pairedNums cfg a b).map Prod.swap).map Prod.snd =
      (pairedNums cfg a b).map Prod.fst := by
    rw [List.map_map]; rfl
  rw [hfst, hsnd, mul_comm]

/-- A column with nonzero variance has Pearson entry one with itself. -/
theorem corrEntry_diag (cfg : Config) (a : Column)
    (hvar : hasVariation (numsSampled cfg a) = true) :
    corrEntry cfg a a = 1 := by
  unfold corrEntry
  rw [pairedNums_self]
  have hfst : ((numsSampled cfg a).map (fun x : ℚ => (x, x))).map Prod.fst =
      numsSampled cfg a := by
    rw [List.map_map]; exact List.map_id _
  have hsnd : ((numsSampled cfg a).map (fun x : ℚ => (x, x))).map Prod.snd =
      numsSampled cfg a := by
    rw [List.map_map]; exact List.map_id _
  rw [hfst, hsnd, covList_dup]
  have hS0 : sumSqDev (numsSampled cfg a) ≠ 0 := by
    intro h
    rw [sumSqDev_eq_zero_iff] at h
    rw [h] at hvar
    exact Bool.false_ne_true hvar
  have hSnn : (0 : ℚ) ≤ sumSqDev (numsSampled cfg a) := sumSqDev_nonneg _
  have hSnnR : (0 : ℝ) ≤ ((sumSqDev (numsSampled cfg a) : ℚ) : ℝ) := by
    exact_mod_cast hSnn
  have hSneR : ((sumSqDev (numsSampled cfg a) : ℚ) : ℝ) ≠ 0 := by
    exact_mod_cast hS0
  rw [Real.sqrt_mul_self hSnnR]
  exact div_self hSneR

/-- Claim C1: when the numeric column count N exceeds maxCorrCols the
correlation output is the explicit skip marker carrying N and the limit,
never a partial matrix; when N is within the limit the computed matrix is
symmetric and every included column has diagonal entry one. -/
theorem correlation_skip_and_matrix (cfg : Config) (t : Table) :
    (cfg.maxCorrCols < (numericCols t).length →
      correlationProfile cfg t =
        CorrelationProfile.skippedWide (numericCols t).length cfg.maxCorrCols) ∧
    ((numericCols t).length ≤ cfg.maxCorrCols →
      correlationProfile cfg t =
        CorrelationProfile.computed (includedForCorr cfg t) ∧
      (∀ a b, a ∈ includedForCorr cfg t → b ∈ includedForCorr cfg t →
        corrEntry cfg a b = corrEntry cfg b a) ∧
      (∀ a ∈ includedForCorr cfg t, corrEntry cfg a a = 1)) := by
  constructor
  · intro h
    unfold correlationProfile
    rw [if_pos h]
  · intro h
    refine ⟨?_, fun a b _ _ => corrEntry_symm cfg a b, fun a ha => ?_⟩
    · unfold correlationProfile
      rw [if_neg (Nat.not_lt.mpr h)]
    · have hcond := (List.mem_filter.mp ha).2
      simp only [Bool.and_eq_true] at hcond
      exact corrEntry_diag cfg a hcond.2

/-- Witness for C1: a table of 81 numeric columns is skipped with marker
81 and limit 80, and in a one-column table the included column has
diagonal entry one. -/
theorem correlation_skip_and_matrix_witness :
    correlationProfile defaultConfig
      ⟨1, List.replicate 81 ⟨"x", DType.float, [some (Value.num 1)]⟩⟩ =
      CorrelationProfile.skippedWide 81 80 ∧
    corrEntry defaultConfig ⟨"x", DType.int, [some (Value.num 1), some (Value.num 2)]⟩
      ⟨"x", DType.int, [some (Value.num 1), some (Value.num 2)]⟩ = 1 := by
  constructor
  · exact (correlation_skip_and_matrix defaultConfig
      ⟨1, List.replicate 81 ⟨"x", DType.float, [some (Value.num 1)]⟩⟩).1 (by decide)
  · exact ((correlation_skip_and_matrix defaultConfig
      ⟨2, [⟨"x", DType.int, [some (Value.num 1), some (Value.num 2)]⟩]⟩).2
      (by decide)).2.2
      ⟨"x", DType.int, [some (Value.num 1), some (Value.num 2)]⟩ (by decide)

/-- Claim C5: a statistic that cannot be computed, here the standard
deviation of a column with fewer than two non-null values, is omitted from
the profile (the field is absent, never zero), while the remaining column
statistics are still computed and every column of the dataset still
receives its profile. -/
theorem statistic_omitted_not_zeroed (cfg : Config) (c : Column)
    (h : (numsSampled cfg c).length < 2) :
    (mkNumericStats (numsSampled cfg c)).stdSq = none ∧
    (mkNumericStats (numsSampled cfg c)).stdSq ≠ some 0 ∧
    (1 ≤ (numsSampled cfg c).length →
      (mkNumericStats (numsSampled cfg c)).mean = some (qMean (numsSampled cfg c))) ∧
    (∀ t : Table, (profileTable cfg t).colProfiles.map (fun p => p.name) =
      t.cols.map (fun col => col.name)) := by
  have habs : (mkNumericStats (numsSampled cfg c)).stdSq = none := by
    unfold mkNumericStats
    exact if_neg (by omega)
  refine ⟨habs, by rw [habs]; exact fun hx => Option.noConfusion hx, fun h1 => ?_, fun t => ?_⟩
  · unfold mkNumericStats
    exact if_neg (by omega)
  · unfold profileTable
    split_ifs <;> rw [List.map_map] <;> rfl

/-- Witness for C5 at a concrete one-value float column. -/
theorem statistic_omitted_not_zeroed_witness :
    (mkNumericStats (numsSampled defaultConfig
      ⟨"v", DType.float, [some (Value.num 5), none]⟩)).stdSq = none ∧
    (mkNumericStats (numsSampled defaultConfig
      ⟨"v", DType.float, [some (Value.num 5), none]⟩)).mean =
      some (qMean (numsSampled defaultConfig
        ⟨"v", DType.float, [some (Value.num 5), none]⟩)) := by
  refine ⟨(statistic_omitted_not_zeroed defaultConfig
    ⟨"v", DType.float, [some (Value.num 5), none]⟩ (by decide)).1, ?_⟩
  exact (statistic_omitted_not_zeroed defaultConfig
    ⟨"v", DType.float, [some (Value.num 5), none]⟩ (by decide)).2.2.1 (by decide)

/-- Claim C7: a table with zero rows is marked empty and receives a
schema-only profile: no statistics, no correlation, no key detection and
no warnings are computed, and since the assembler is a total function no
error is raised. -/
theorem empty_table_marked_empty (cfg : Config) (t : Table) (h : t.rowCount = 0) :
    (profileTable cfg t).markedEmpty = true ∧
    (profileTable cfg t).colProfiles = t.cols.map schemaOnlyProfile ∧
    (profileTable cfg t).corr = none ∧
    (profileTable cfg t).keys = [] ∧
    (profileTable cfg t).warnings = [] ∧
    (profileTable cfg t).rows = 0 ∧
    (profileTable cfg t).columns = t.cols.length := by
  unfold profileTable
  rw [if_pos h]
  exact ⟨rfl, rfl, rfl, rfl, rfl, rfl, rfl⟩

/-- Witness for C7 at a concrete zero-row table. -/
theorem empty_table_marked_empty_witness :
    (profileTable defaultConfig ⟨0, [⟨"a", DType.str, []⟩]⟩).markedEmpty = true ∧
    (profileTable defaultConfig ⟨0, [⟨"a", DType.str, []⟩]⟩).corr = none := by
  refine ⟨(empty_table_marked_empty defaultConfig ⟨0, [⟨"a", DType.str, []⟩]⟩ (by decide)).1, ?_⟩
  exact (empty_table_marked_empty defaultConfig ⟨0, [⟨"a", DType.str, []⟩]⟩ (by decide)).2.2.1

/-- Claim C6: the aggregator is a pure function of the sequence of dataset
profiles: calling it twice on the same profile set yields identical
master summaries. -/
theorem aggregator_pure_idempotent (ps : List DatasetProfile) :
    aggregate ps = aggregate ps ∧
    ∀ qs : List DatasetProfile, ps = qs → aggregate ps = aggregate qs :=
  ⟨rfl, fun _ h => h ▸ rfl⟩

/-- Witness for C6 at the empty profile set. -/
theorem aggregator_pure_idempotent_witness :
    aggregate [] = aggregate [] :=
  (aggregator_pure_idempotent []).2 [] rfl

/-- Every row the CSV state machine ever flushes ends in a pushed cell,
so no parsed row is empty. -/
theorem csvAux_rows_nonempty : ∀ (input : List Char) (inQ : Bool) (col : List Char)
    (row : List (List Char)) (rows : List (List (List Char))),
    (∀ r ∈ rows, r ≠ []) → ∀ r ∈ csvAux input inQ col row rows, r ≠ [] := by
  intro input inQ col row rows
  induction input, inQ, col, row, rows using csvAux.induct with
  | case1 x col row rows hcond =>
    intro hrows r hr
    rw [csvAux, if_pos hcond] at hr
    rcases List.mem_append.mp hr with h1 | h2
    · exact hrows r h1
    · rw [List.mem_singleton] at h2
      subst h2
      simp
  | case2 x col row rows hcond =>
    intro hrows r hr
    rw [csvAux, if_neg hcond] at hr
    exact hrows r hr
  | case3 rest col row rows ih =>
    intro hrows r hr
    rw [csvAux] at hr
    exact ih hrows r hr
  | case4 rest inQ col row rows hside ih =>
    intro hrows r hr
    rw [csvAux] at hr
    · exact ih hrows r hr
    · exact hside
  | case5 c rest inQ col row rows hq1 hq2 hcomma ih =>
    intro hrows r hr
    rw [csvAux, if_pos hcomma] at hr
    · exact ih hrows r hr
    all_goals first | exact hq1 | exact hq2
  | case6 c rest inQ col row rows hq1 hq2 hnc hnl hflush ih =>
    intro hrows r hr
    rw [csvAux, if_neg hnc, if_pos hnl, if_pos hflush] at hr
    · refine ih ?_ r hr
      intro r2 hr2
      rcases List.mem_append.mp hr2 with h1 | h2
      · exact hrows r2 h1
      · rw [List.mem_singleton] at h2
        subst h2
        simp
    all_goals first | exact hq1 | exact hq2
  | case7 c rest inQ col row rows hq1 hq2 hnc hnl hnoflush ih =>
    intro hrows r hr
    rw [csvAux, if_neg hnc, if_pos hnl, if_neg hnoflush] at hr
    · exact ih hrows r hr
    all_goals first | exact hq1 | exact hq2
  | case8 c rest inQ col row rows hq1 hq2 hnc hnnl ih =>
    intro hrows r hr
    rw [csvAux, if_neg hnc, if_neg hnnl] at hr
    · exact ih hrows r hr
    all_goals first | exact hq1 | exact hq2

/-- The keys of a built record are exactly the headers it was built
from. -/
theorem mkRecord_map_fst (headers r : List (List Char)) :
    (mkRecord headers r).map Prod.fst = headers := by
  unfold mkRecord
  rw [List.map_map]
  exact List.enum_map_snd headers

/-- Unfolding of parseCSV when the state machine produced a header row. -/
theorem parseCSV_eq_of_rows (text : String) (hdr : List (List Char))
    (drs : List (List (List Char))) (h : csvRows text = hdr :: drs) :
    parseCSV text =
      (drs.filter (fun r => decide (r.length ≠ 0))).map (mkRecord (hdr.map trimCell)) := by
  unfold parseCSV
  rw [h]

/-- Claim C8: parseCSV is a total function on strings (a Lean function,
hence deterministic and never throwing); for the empty string it returns
the empty list; whenever the state machine yields a header row and data
rows it returns one record per data row whose keys are exactly the
trimmed header cells; and in a quoted field a doubled double quote yields
one literal quote while commas and newlines inside quotes split nothing,
as checked on a concrete input exercising all three. -/
theorem parseCSV_shape :
    parseCSV "" = [] ∧
    (∀ (text : String) (hdr : List (List Char)) (drs : List (List (List Char))),
      csvRows text = hdr :: drs →
        (parseCSV text).length = drs.length ∧
        ∀ rec ∈ parseCSV text, rec.map Prod.fst = hdr.map trimCell) ∧
    parseCSV "a,b\n\"x\"\"y\",\"1,2\nz\"" =
      [[(['a'], some ['x', '"', 'y']), (['b'], some ['1', ',', '2', '\n', 'z'])]] := by
  refine ⟨rfl, ?_, by decide⟩
  intro text hdr drs hrows
  have hne : ∀ r ∈ drs, r ≠ [] := by
    intro r hr
    have hall := csvAux_rows_nonempty text.data false [] [] [] (by simp)
    have hmem : r ∈ csvRows text := by
      rw [hrows]
      exact List.mem_cons_of_mem hdr hr
    exact hall r hmem
  have hfilter : drs.filter (fun r => decide (r.length ≠ 0)) = drs := by
    apply List.filter_eq_self.mpr
    intro r hr
    simp only [decide_eq_true_eq]
    exact fun h0 => hne r hr (List.length_eq_zero.mp h0)
  rw [parseCSV_eq_of_rows text hdr drs hrows, hfilter]
  constructor
  · exact List.length_map drs _
  · intro rec hrec
    rcases List.mem_map.mp hrec with ⟨r, _, rfl⟩
    exact mkRecord_map_fst _ r

/-- Witness for C8 at the concrete text a,b newline 1,2. -/
theorem parseCSV_shape_witness :
    (parseCSV "a,b\n1,2").length = 1 ∧
    ∀ rec ∈ parseCSV "a,b\n1,2", rec.map Prod.fst = [['a'], ['b']].map trimCell :=
  parseCSV_shape.2.1 "a,b\n1,2" [['a'], ['b']] [[['1'], ['2']]] (by decide)

/-- A left fold of min is below its seed and every list element. -/
theorem foldl_min_le (l : List ℚ) : ∀ a : ℚ,
    l.foldl min a ≤ a ∧ ∀ v ∈ l, l.foldl min a ≤ v := by
  induction l with
  | nil =>
    intro a
    exact ⟨le_refl a, by simp⟩
  | cons x l ih =>
    intro a
    refine ⟨le_trans (ih (min a x)).1 (min_le_left a x), ?_⟩
    intro v hv
    rcases List.mem_cons.mp hv with rfl | hv2
    · exact le_trans (ih (min a v)).1 (min_le_right a v)
    · exact (ih (min a x)).2 v hv2

/-- A left fold of max is above its seed and every list element. -/
theorem le_foldl_max (l : List ℚ) : ∀ a : ℚ,
    a ≤ l.foldl max a ∧ ∀ v ∈ l, v ≤ l.foldl max a := by
  induction l with
  | nil =>
    intro a
    exact ⟨le_refl a, by simp⟩
  | cons x l ih =>
    intro a
    refine ⟨le_trans (le_max_left a x) (ih (max a x)).1, ?_⟩
    intro v hv
    rcases List.mem_cons.mp hv with rfl | hv2
    · exact le_trans (le_max_right a v) (ih (max a v)).1
    · exact (ih (max a x)).2 v hv2

/-- The histogram minimum bounds every value from below. -/
theorem histMin_le (values : List ℚ) : ∀ v ∈ values, histMin values ≤ v := by
  cases values with
  | nil => simp
  | cons x l =>
    intro v hv
    rcases List.mem_cons.mp hv with rfl | hv2
    · exact (foldl_min_le l v).1
    · exact (foldl_min_le l x).2 v hv2

/-- The histogram maximum bounds every value from above. -/
theorem le_histMax (values : List ℚ) : ∀ v ∈ values, v ≤ histMax values := by
  cases values with
  | nil => simp
  | cons x l =>
    intro v hv
    rcases List.mem_cons.mp hv with rfl | hv2
    · exact (le_foldl_max l v).1
    · exact (le_foldl_max l x).2 v hv2

/-- The bin width of a nonempty value list is positive. -/
theorem binSize_pos (values : List ℚ) (h : values ≠ []) : 0 < binSize values := by
  unfold binSize
  split_ifs with h0
  · exact one_pos
  · rcases values with _ | ⟨x, l⟩
    · exact absurd rfl h
    · have hmin : histMin (x :: l) ≤ x := histMin_le (x :: l) x (List.mem_cons_self x l)
      have hmax : x ≤ histMax (x :: l) := le_histMax (x :: l) x (List.mem_cons_self x l)
      have hnn : 0 ≤ (histMax (x :: l) - histMin (x :: l)) / 14 :=
        div_nonneg (by linarith) (by norm_num)
      exact lt_of_le_of_ne hnn (Ne.symm h0)

/-- One increment raises the total of the fourteen counters by one. -/
theorem sum_update_add_one (f : Fin 14 → ℕ) (j : Fin 14) :
    ∑ i, Function.update f j (f j + 1) i = (∑ i, f i) + 1 := by
  rw [Finset.sum_update_of_mem (Finset.mem_univ j),
    Finset.sdiff_singleton_eq_erase j Finset.univ]
  have h2 := Finset.add_sum_erase Finset.univ f (Finset.mem_univ j)
  omega

/-- Folding the increments over any value list adds its length to the
counter total. -/
theorem binCounts_fold_sum (values : List ℚ) : ∀ (vs : List ℚ) (acc : Fin 14 → ℕ),
    (∑ i, vs.foldl
      (fun a v => Function.update a (binIdx values v) (a (binIdx values v) + 1)) acc i)
      = (∑ i, acc i) + vs.length := by
  intro vs
  induction vs with
  | nil =>
    intro acc
    simp
  | cons v vs ih =>
    intro acc
    rw [List.foldl_cons, ih, sum_update_add_one]
    simp only [List.length_cons]
    omega

/-- Claim C9: for every nonempty value list the bin width is positive
(and exactly one when max equals min), the clamped bin index of every value
lies between 0 and 13 so each counter increment is in bounds, and the
fourteen counters sum to the number of values. -/
theorem histogram_bins_safe (values : List ℚ) (h : values ≠ []) :
    0 < binSize values ∧
    (histMax values - histMin values = 0 → binSize values = 1) ∧
    (∀ v ∈ values, 0 ≤ binIdxZ values v ∧ binIdxZ values v ≤ 13) ∧
    (∑ i : Fin 14, binCounts values i) = values.length := by
  refine ⟨binSize_pos values h, ?_, ?_, ?_⟩
  · intro h0
    unfold binSize
    rw [if_pos (by rw [h0]; norm_num)]
  · intro v hv
    constructor
    · apply le_min (by norm_num)
      apply Int.floor_nonneg.mpr
      apply div_nonneg
      · exact sub_nonneg.mpr (histMin_le values v hv)
      · exact le_of_lt (binSize_pos values h)
    · exact min_le_left _ _
  · unfold binCounts
    rw [binCounts_fold_sum values values (fun _ => 0)]
    simp

/-- Witness for C9 at the concrete value list [1, 2]. -/
theorem histogram_bins_safe_witness :
    0 < binSize [(1 : ℚ), 2] ∧
    (histMax [(1 : ℚ), 2] - histMin [(1 : ℚ), 2] = 0 → binSize [(1 : ℚ), 2] = 1) ∧
    (∀ v ∈ [(1 : ℚ), 2], 0 ≤ binIdxZ [(1 : ℚ), 2] v ∧ binIdxZ [(1 : ℚ), 2] v ≤ 13) ∧
    (∑ i : Fin 14, binCounts [(1 : ℚ), 2] i) = ([(1 : ℚ), 2]).length :=
  histogram_bins_safe [(1 : ℚ), 2] (by decide)

end DataDesc
